import Mathlib

/-!
Verification of the windowing and feature-extraction engine of src/prep.py
(EEG cognitive-workload pipeline).

The Python source is shallowly embedded: sample data are lists of rationals,
Python `int` truncation of non-negative values is `Int.floor`/`Int.toNat`,
the Python `range`-driven while loop is a fuel-indexed structural recursion,
and the transcendental primitives (log10, sqrt, powers) are modelled over ℝ.
The scipy/numpy library internals (Welch PSD estimation, SVD least squares)
are external to the repository; where a claim depends on them the embedding
takes their documented output as input.
-/

set_option maxRecDepth 4000

namespace Prep

/-! ### Windowing (create_silver_features, src/prep.py:199-213)

The loop is `for start_idx in range(0, n_samples - window_samples + 1,
step_samples)`.  `pyRangeGo` is the fuel-indexed embedding of CPython's
`range(0, stop, step)` iteration for a positive step: it emits `cur` while
`cur < stop`, advancing by `step`.  The fuel `stop.toNat` dominates the
number of iterations because each iteration advances `cur` by at least 1.
A non-positive `step` makes Python's `range` raise `ValueError`; the
embedding returns `[]` there, and the theorems that describe the loop
assume `1 ≤ step` (claim C2 records the unguarded `step_samples = 0` case).
-/

def pyRangeGo (stop : ℤ) (step : ℕ) : ℕ → ℤ → List ℤ
  | 0, _ => []
  | fuel + 1, cur =>
    if cur < stop ∧ 1 ≤ step then cur :: pyRangeGo stop step fuel (cur + step) else []

/-- Embedding of Python `list(range(0, stop, step))` for `step ≥ 1`. -/
def pyRange (stop : ℤ) (step : ℕ) : List ℤ :=
  pyRangeGo stop step stop.toNat 0

/-- Window start offsets of src/prep.py:212:
`range(0, n_samples - window_samples + 1, step_samples)`. -/
def windowStarts (n ws step : ℕ) : List ℤ :=
  pyRange ((n : ℤ) - ws + 1) step

/-- src/prep.py:199: `window_samples = int(WINDOW_SIZE * SAMPLING_RATE)`.
Python `int()` truncates toward zero; the operand is non-negative for the
configurations in scope, so truncation is the floor. -/
def windowSamplesOf (windowSize samplingRate : ℚ) : ℕ :=
  ⌊windowSize * samplingRate⌋.toNat

/-- src/prep.py:200: `step_samples = int(window_samples * (1 - WINDOW_OVERLAP))`.
No clamping to 1 is performed by the source. -/
def stepSamplesOf (windowSamples : ℕ) (overlap : ℚ) : ℕ :=
  ⌊(windowSamples : ℚ) * (1 - overlap)⌋.toNat

/-! ### Elementary list statistics (extract_window_features, src/prep.py:166-177) -/

/-- Mean of a list of rationals (`np.mean`); Lean's `x / 0 = 0` stands in for
the empty case, which the source never reaches (slices have ≥ 10 samples). -/
def listMean (l : List ℚ) : ℚ :=
  l.sum / l.length

/-- Population variance (`np.var`). -/
def listVar (l : List ℚ) : ℚ :=
  listMean (l.map (fun x => (x - listMean l) ^ 2))

/-- Minimum of a list (`np.min`); 0 on the empty list, unreachable in the source. -/
def listMin : List ℚ → ℚ
  | [] => 0
  | x :: xs => xs.foldl min x

/-- Maximum of a list (`np.max`); 0 on the empty list, unreachable in the source. -/
def listMax : List ℚ → ℚ
  | [] => 0
  | x :: xs => xs.foldl max x

/-! ### FeatureRow and the silver layer

`extract_window_features` (src/prep.py:166-189) builds one record per
(subject, window, channel).  The embedding keeps the identifying keys, the
window boundaries, and the rational-valued time-domain statistics.  The
remaining numeric fields of the source record (skewness, kurtosis, the five
band powers, spectral entropy, dfa_alpha) are produced by scipy estimators
or involve square roots and are analysed as standalone functions below
(compute_spectral_entropy, compute_dfa); no claim constrains their values
inside a row. -/

structure FeatureRow where
  subject : String
  channel : String
  window_idx : ℕ
  window_start : ℚ
  window_end : ℚ
  mean_val : ℚ
  var_val : ℚ
  min_val : ℚ
  max_val : ℚ
  energy : ℚ
deriving DecidableEq, Repr

/-- Embedding of `extract_window_features` (src/prep.py:166-177) merged with
the key assignment done by its caller (src/prep.py:229-233). -/
def extract_window_features (wdata : List ℚ) (chan subj : String) (wi : ℕ)
    (wstart wend : ℚ) : FeatureRow :=
  { subject := subj
    channel := chan
    window_idx := wi
    window_start := wstart
    window_end := wend
    mean_val := listMean wdata
    var_val := listVar wdata
    min_val := listMin wdata
    max_val := listMax wdata
    energy := (wdata.map (fun x => x ^ 2)).sum }

/-- One per-subject block of the bronze table: the subject id, the number of
rows of the subject's frame (`n_samples = len(subject_data)`), and each
channel column's ordered samples.  In the source all columns have exactly
`nSamples` entries; the embedding does not force that, which lets the
min-sample skip of src/prep.py:226 be exercised per channel. -/
structure Recording where
  subject : String
  nSamples : ℕ
  channels : List (String × List ℚ)

/-- Python slice `window_slice[channel].values` for a window starting at
`start` with `ws` samples. -/
def sliceChan (data : List ℚ) (start : ℤ) (ws : ℕ) : List ℚ :=
  (data.drop start.toNat).take ws

/-- Inner channel loop of create_silver_features (src/prep.py:220-235): for
each channel, slice the window, skip it if fewer than 10 samples remain,
otherwise emit its FeatureRow.  `window_start` and `window_end` come from the
`time_sec` column of the frame slice: the first and last row's
`sample_idx / SAMPLING_RATE` (src/prep.py:216-217). -/
def rowsForWindow (subj : String) (chans : List (String × List ℚ)) (ws : ℕ)
    (fs : ℚ) (wi : ℕ) (start : ℤ) : List FeatureRow :=
  chans.filterMap (fun c =>
    if (sliceChan c.2 start ws).length < 10 then none
    else some (extract_window_features (sliceChan c.2 start ws) c.1 subj wi
      ((start : ℚ) / fs) (((start : ℚ) + ws - 1) / fs)))

/-- Per-subject windowing loop of create_silver_features (src/prep.py:210-237):
slide windows over the subject's frame, extracting the channels of each
window; `window_count` is the 0-based enumeration index of the window. -/
def silverRowsForSubject (rec : Recording) (ws step : ℕ) (fs : ℚ) : List FeatureRow :=
  ((windowStarts rec.nSamples ws step).enum).flatMap
    (fun p => rowsForWindow rec.subject rec.channels ws fs p.1 p.2)

/-- Embedding of create_silver_features (src/prep.py:191-252): the feature
table is the concatenation of the per-subject tables, in subject order. -/
def create_silver_features (recs : List Recording) (ws step : ℕ) (fs : ℚ) :
    List FeatureRow :=
  recs.flatMap (fun r => silverRowsForSubject r ws step fs)

/-! ### Spectral entropy (compute_spectral_entropy, src/prep.py:115-120)

The source computes `freqs, psd = signal.welch(...)` and then normalises.
scipy's Welch estimator is external library code; the embedding starts from
its output PSD (spec section 4.2 guarantees the PSD entries are
non-negative).  When the PSD sums to zero, numpy's `psd / psd.sum()` turns
every (zero) entry into NaN, and `psd_norm[psd_norm > 0]` drops NaN entries;
in the embedding `0 / 0 = 0` is likewise dropped by the positivity filter,
so both compute an empty sum, i.e. 0. -/

noncomputable def compute_spectral_entropy (psd : List ℚ) : ℝ :=
  let s := psd.sum
  let pn := (psd.map (fun p => p / s)).filter (fun p => decide (0 < p))
  Neg.neg ((pn.map (fun (p : ℚ) => (p : ℝ) * Real.logb 2 (p : ℝ))).sum)

/-! ### Detrended fluctuation analysis (compute_dfa, src/prep.py:122-164)

numpy's float arithmetic is modelled over the exact reals: `np.logspace`,
`np.log10` and `np.sqrt` become `Real.rpow`, `Real.logb 10` and
`Real.sqrt`; `.astype(int)` truncation of the positive scale values is
`Int.floor`.  `np.polyfit(x, y, 1)` is the degree-one least-squares fit,
embedded by its closed-form normal-equation solution (what scipy's SVD
least squares returns whenever the design matrix is non-degenerate; the
per-segment fits always use at least 2 distinct abscissae). -/

/-- Cumulative sum, `np.cumsum`. -/
def cumsum (l : List ℚ) : List ℚ :=
  (l.scanl (· + ·) 0).tail

/-- src/prep.py:130: the profile `y = np.cumsum(data - np.mean(data))`. -/
def profile (data : List ℚ) : List ℚ :=
  cumsum (data.map (fun x => x - listMean data))

/-- src/prep.py:133: `scales = np.logspace(1, np.log10(N//4), 8).astype(int)`.
`np.logspace(1, E, 8)` samples `10 ^ (1 + i * (E - 1) / 7)` for
`i = 0, ..., 7`; the values are positive, so `astype(int)` is the floor. -/
noncomputable def dfaScales (N : ℕ) : List ℤ :=
  (List.range 8).map (fun (i : ℕ) =>
    ⌊(10 : ℝ) ^ ((1 : ℝ) + (i : ℝ) * (Real.logb 10 ((N / 4 : ℕ) : ℝ) - 1) / 7)⌋)

/-- Least-squares slope of a degree-one fit of `seg` against `x = 0, ..., n-1`
(`np.polyfit(x, segment, 1)[0]`). -/
def lsSlope (seg : List ℚ) : ℚ :=
  let n : ℚ := seg.length
  let xs : List ℚ := (List.range seg.length).map (fun i => (i : ℚ))
  (n * (List.zipWith (· * ·) xs seg).sum - xs.sum * seg.sum) /
    (n * (xs.map (fun x => x ^ 2)).sum - xs.sum ^ 2)

/-- Least-squares intercept of the same fit (`np.polyfit(x, segment, 1)[1]`). -/
def lsIntercept (seg : List ℚ) : ℚ :=
  let xs : List ℚ := (List.range seg.length).map (fun i => (i : ℚ))
  (seg.sum - lsSlope seg * xs.sum) / seg.length

/-- Residuals after removing the fitted linear trend, `segment - trend`
(src/prep.py:147-149). -/
def residuals (seg : List ℚ) : List ℚ :=
  seg.enum.map (fun p => p.2 - (lsSlope seg * (p.1 : ℚ) + lsIntercept seg))

/-- Mean of the squared residuals, `np.mean((segment - trend)**2)`. -/
def meanSqResid (seg : List ℚ) : ℚ :=
  listMean ((residuals seg).map (fun x => x ^ 2))

/-- Per-segment RMS residual, `np.sqrt(np.mean((segment - trend)**2))`. -/
noncomputable def rmsResid (seg : List ℚ) : ℝ :=
  Real.sqrt ((meanSqResid seg : ℚ) : ℝ)

/-- Mean of a list of reals, `np.mean` over the per-segment RMS values. -/
noncomputable def listMeanR (l : List ℝ) : ℝ :=
  l.sum / l.length

/-- The segment `y[i*scale:(i+1)*scale]` (src/prep.py:143). -/
def segAt (y : List ℚ) (scale i : ℕ) : List ℚ :=
  (y.drop (i * scale)).take scale

/-- One iteration of the scale loop of compute_dfa (src/prep.py:136-152):
`segments = N // scale` full slices; slices shorter than 2 samples are
skipped; the scale is skipped entirely (`none`) when `segments < 1` or when
no valid slice remains, else the fluctuation is the mean of the per-segment
RMS residuals. -/
noncomputable def fluctForScale (y : List ℚ) (scale : ℕ) : Option ℝ :=
  if y.length / scale < 1 then none
  else
    let F := (List.range (y.length / scale)).filterMap (fun i =>
      let seg := segAt y scale i
      if seg.length < 2 then none else some (rmsResid seg))
    if F.isEmpty then none else some (listMeanR F)

/-- The fluctuation list accumulated over all 8 scales (src/prep.py:134-152). -/
noncomputable def dfaFluctuations (data : List ℚ) : List ℝ :=
  (dfaScales data.length).filterMap
    (fun sc => fluctForScale (profile data) sc.toNat)

/-- Least-squares slope of a degree-one fit of `ys` against `xs`
(`np.polyfit(log_scales, log_flucts, 1)[0]`, src/prep.py:160). -/
noncomputable def slopeFit (xs ys : List ℝ) : ℝ :=
  let n : ℝ := xs.length
  (n * (List.zipWith (· * ·) xs ys).sum - xs.sum * ys.sum) /
    (n * (xs.map (fun x => x ^ 2)).sum - xs.sum ^ 2)

/-- Embedding of compute_dfa (src/prep.py:122-164).  The function is total:
the source's blanket `except: return 0.0` can only map a failure to 0, and
the two explicit sentinel branches (`N < 16`, fewer than 2 fluctuation
values) are kept as written.  `scales[:len(flucts)]` is the source's pairing
of scales with fluctuation values for the final log-log fit. -/
noncomputable def compute_dfa (data : List ℚ) : ℝ :=
  if data.length < 16 then 0
  else
    let scales := dfaScales data.length
    let flucts := dfaFluctuations data
    if flucts.length < 2 then 0
    else
      slopeFit ((scales.take flucts.length).map (fun (sc : ℤ) => Real.logb 10 (sc : ℝ)))
        (flucts.map (fun f => Real.logb 10 f))

/-! ### Claim C7: segmentation and fluctuation per scale -/

/-- Segmentation policy of the scale loop restated structurally: consume full
slices of length `s` from the front while at least `s` samples remain, and
drop whatever is left (the entire remainder, whatever its length).  The fuel
argument dominates the recursion depth. -/
def fullChunksGo (s : ℕ) : ℕ → List ℚ → List (List ℚ)
  | 0, _ => []
  | fuel + 1, y =>
    if 1 ≤ s ∧ s ≤ y.length then y.take s :: fullChunksGo s fuel (y.drop s) else []

/-- Full `s`-sized chunks of `y` in order, remainder discarded. -/
def fullChunks (s : ℕ) (y : List ℚ) : List (List ℚ) :=
  fullChunksGo s y.length y

/-- Transcription of the claim's segmentation policy (spec section 4.5 item
4): full consecutive slices of length `s`, with the trailing remainder kept
as a segment whenever it has at least 2 samples and discarded only when
shorter. -/
def claimSegments (y : List ℚ) (s : ℕ) : List (List ℚ) :=
  (List.range (y.length / s)).map (segAt y s) ++
    (if 2 ≤ y.length % s then [y.drop (y.length / s * s)] else [])

/-- Transcription of the claim's per-scale fluctuation value: the mean of
the per-segment RMS residuals over the segments of `claimSegments`. -/
noncomputable def claimFluctForScale (y : List ℚ) (s : ℕ) : Option ℝ :=
  if (claimSegments y s).isEmpty then none
  else some (listMeanR ((claimSegments y s).map rmsResid))

/-! ### Gold layer (create_gold_layer, src/prep.py:258-298)

The two marts are SQL aggregations over the silver table.  The embedding
keeps, for each grouping, the key and the `n_windows` column — `COUNT(*)`
for the channel mart (src/prep.py:278) and `COUNT(DISTINCT window_idx)` for
the subject mart (src/prep.py:289) — together with the average of the one
numeric column carried by the embedded FeatureRow (`avg_mean`,
src/prep.py:267).  The remaining AVG/STDDEV columns average spectral
quantities that live outside the embedded row, and the `ORDER BY` clauses
only permute whole output rows (they never change the per-key values that
claim C3 is about); neither is modelled.  Grouping keys are listed in first
order of appearance. -/

structure ChannelAgg where
  channel : String
  avg_mean : ℚ
  n_windows : ℕ
deriving DecidableEq, Repr

structure SubjectAgg where
  subject : String
  n_windows : ℕ
deriving DecidableEq, Repr

/-- Distinct values of a key column, in first order of appearance. -/
def firstDedup (l : List String) : List String :=
  l.foldl (fun acc x => if x ∈ acc then acc else acc ++ [x]) []

/-- Embedding of the `gold_workload_stats` aggregation (src/prep.py:263-282):
one row per distinct channel, with `n_windows = COUNT(*)`. -/
def gold_workload_stats (rows : List FeatureRow) : List ChannelAgg :=
  (firstDedup (rows.map (fun r => r.channel))).map (fun c =>
    { channel := c
      avg_mean := listMean
        ((rows.filter (fun r => decide (r.channel = c))).map (fun r => r.mean_val))
      n_windows := (rows.filter (fun r => decide (r.channel = c))).length })

/-- Embedding of the `gold_subject_stats` aggregation (src/prep.py:285-298):
one row per distinct subject, with `n_windows = COUNT(DISTINCT window_idx)`. -/
def gold_subject_stats (rows : List FeatureRow) : List SubjectAgg :=
  (firstDedup (rows.map (fun r => r.subject))).map (fun s =>
    { subject := s
      n_windows := ((rows.filter (fun r => decide (r.subject = s))).map
        (fun r => r.window_idx)).dedup.length })

/-! ### Claim C3: the n_windows columns -/

/-- Two FeatureRows of the same subject and the same window on different
channels, as produced by one window of a two-channel recording. -/
def exRowA : FeatureRow :=
  { subject := "s00", channel := "Fp1", window_idx := 0, window_start := 0
    window_end := 0, mean_val := 0, var_val := 0, min_val := 0, max_val := 0
    energy := 0 }

def exRowB : FeatureRow :=
  { subject := "s00", channel := "Fp2", window_idx := 0, window_start := 0
    window_end := 0, mean_val := 0, var_val := 0, min_val := 0, max_val := 0
    energy := 0 }

/-- One-channel recording used by the C8 and C10 witnesses. -/
def recW : Recording :=
  { subject := "s00", nSamples := 20, channels := [("Fp1", List.replicate 20 0)] }

/-- The row produced for window 0 of `recW` at `ws = 10`, `step = 5`,
`fs = 250`. -/
def rW : FeatureRow :=
  extract_window_features (sliceChan (List.replicate 20 (0 : ℚ)) 0 10) "Fp1"
    "s00" 0 (((0 : ℤ) : ℚ) / 250) ((((0 : ℤ) : ℚ) + 10 - 1) / 250)

/-- Two-channel recording whose second channel has only 5 samples: its
window-0 slice has fewer than 10 samples. -/
def rec9 : Recording :=
  { subject := "s00", nSamples := 20
    channels := [("Fp1", List.replicate 20 0), ("Fp2", List.replicate 5 0)] }


/-! ### Claim C1: window count -/

theorem pyRangeGo_eq_nil (stop : ℤ) (step : ℕ) (fuel : ℕ) (cur : ℤ)
    (h : ¬ cur < stop) : pyRangeGo stop step fuel cur = [] := by
  cases fuel with
  | zero => rfl
  | succ n => simp [pyRangeGo, h]

theorem pyRangeGo_length (stop : ℤ) (step : ℕ) (hstep : 1 ≤ step) :
    ∀ (fuel : ℕ) (cur : ℤ), cur < stop → stop - cur ≤ fuel →
      (pyRangeGo stop step fuel cur).length = (stop - 1 - cur).toNat / step + 1 := by
  intro fuel
  induction fuel with
  | zero => intro cur h1 h2; omega
  | succ n ih =>
    intro cur h1 h2
    have hif : pyRangeGo stop step (n + 1) cur
        = cur :: pyRangeGo stop step n (cur + step) := by
      simp [pyRangeGo, h1, hstep]
    rw [hif, List.length_cons]
    by_cases h3 : cur + step < stop
    · have hfuel : stop - (cur + step) ≤ n := by omega
      rw [ih (cur + step) h3 hfuel]
      have hA : (stop - 1 - cur).toNat = (stop - 1 - (cur + step)).toNat + step := by
        omega
      rw [hA, Nat.add_div_right _ (by omega : 0 < step)]
    · rw [pyRangeGo_eq_nil stop step n (cur + step) h3, List.length_nil]
      have hlt : (stop - 1 - cur).toNat < step := by omega
      rw [Nat.div_eq_of_lt hlt]

theorem windowStarts_length_of_le (n ws step : ℕ) (hstep : 1 ≤ step) (h : ws ≤ n) :
    (windowStarts n ws step).length = (n - ws) / step + 1 := by
  unfold windowStarts pyRange
  have h1 : (0 : ℤ) < (n : ℤ) - ws + 1 := by omega
  have h2 : ((n : ℤ) - ws + 1) - 0 ≤ (((n : ℤ) - ws + 1).toNat : ℤ) := by omega
  rw [pyRangeGo_length _ _ hstep _ 0 h1 h2]
  have h3 : ((n : ℤ) - ws + 1 - 1 - 0).toNat = n - ws := by omega
  rw [h3]

theorem windowStarts_eq_nil (n ws step : ℕ) (h : n < ws) :
    windowStarts n ws step = [] := by
  unfold windowStarts pyRange
  exact pyRangeGo_eq_nil _ _ _ _ (by omega)

/-- C1: with per-channel sample count `N` and a positive step, the windowing
loop of create_silver_features produces exactly
`(N - window_samples) / step_samples + 1` windows when `N ≥ window_samples`
(floor division), and exactly zero windows — hence an empty FeatureRow list
for that subject, with no failure — when `N < window_samples`. -/
theorem C1_window_count (rec : Recording) (ws step : ℕ) (hstep : 1 ≤ step) :
    (ws ≤ rec.nSamples →
      (windowStarts rec.nSamples ws step).length = (rec.nSamples - ws) / step + 1) ∧
    (rec.nSamples < ws →
      windowStarts rec.nSamples ws step = [] ∧
      ∀ fs : ℚ, silverRowsForSubject rec ws step fs = []) := by
  constructor
  · intro h
    exact windowStarts_length_of_le _ _ _ hstep h
  · intro h
    have hnil := windowStarts_eq_nil rec.nSamples ws step h
    refine ⟨hnil, fun fs => ?_⟩
    unfold silverRowsForSubject
    rw [hnil]
    rfl

/-- Witness for C1 at the spec's concrete configuration: 1250 samples,
500-sample windows (2.0 s at 250 Hz), 250-sample step. -/
theorem C1_window_count_witness :
    1 ≤ 250 ∧
    ((500 ≤ 1250 →
        (windowStarts 1250 500 250).length = (1250 - 500) / 250 + 1) ∧
      (1250 < 500 →
        windowStarts 1250 500 250 = [] ∧
        ∀ fs : ℚ, silverRowsForSubject
          { subject := "s00", nSamples := 1250, channels := [] } 500 250 fs = [])) :=
  ⟨by norm_num,
    C1_window_count { subject := "s00", nSamples := 1250, channels := [] } 500 250
      (by norm_num)⟩

/-! ### Claim C2: step_samples clamping

src/prep.py:200 computes `step_samples = int(window_samples * (1 -
WINDOW_OVERLAP))` with no clamp.  For overlap close to 1 (or a one-sample
window at the default 0.5 overlap) the product truncates to 0, and Python's
`range(0, ..., 0)` raises ValueError instead of enumerating windows. -/

/-- C2 fails on the code: at the default 500-sample window an overlap of
0.999 gives `step_samples = int(0.5) = 0`, and a 1-sample window at the
default overlap 0.5 likewise gives 0 — not the claimed minimum of 1. -/
theorem C2_step_samples_zero :
    stepSamplesOf 500 (999 / 1000) = 0 ∧ stepSamplesOf 1 (1 / 2) = 0 := by
  constructor
  · norm_num [stepSamplesOf]
  · norm_num [stepSamplesOf]

/-! ### Claim C5: spectral entropy guard -/

theorem list_sum_nonpos : ∀ {l : List ℝ}, (∀ x ∈ l, x ≤ 0) → l.sum ≤ 0
  | [], _ => by simp
  | x :: xs, h => by
    rw [List.sum_cons]
    have hx := h x (List.mem_cons_self x xs)
    have hxs := list_sum_nonpos (fun y hy => h y (List.mem_cons_of_mem x hy))
    linarith

theorem normalized_filter_mem {psd : List ℚ} (hpos : ∀ p ∈ psd, 0 ≤ p) (q : ℚ)
    (hq : q ∈ (psd.map (fun p => p / psd.sum)).filter (fun p => decide (0 < p))) :
    0 < q ∧ q ≤ 1 := by
  rcases List.mem_filter.mp hq with ⟨hmem, hdec⟩
  have hqpos : 0 < q := of_decide_eq_true hdec
  rcases List.mem_map.mp hmem with ⟨b, hb, rfl⟩
  refine ⟨hqpos, ?_⟩
  have hsum0 : (0 : ℚ) ≤ psd.sum := List.sum_nonneg hpos
  rcases eq_or_lt_of_le hsum0 with hz | hslt
  · exfalso
    rw [← hz, div_zero] at hqpos
    exact lt_irrefl 0 hqpos
  · exact (div_le_one hslt).mpr (List.single_le_sum hpos b hb)

theorem compute_spectral_entropy_eq (psd : List ℚ) :
    compute_spectral_entropy psd =
      Neg.neg ((((psd.map (fun p => p / psd.sum)).filter
          (fun p => decide (0 < p))).map
        (fun (p : ℚ) => (p : ℝ) * Real.logb 2 (p : ℝ))).sum) := rfl

/-- C5: when the estimated PSD sums to zero the spectral-entropy extractor
returns 0 (rather than propagating the degenerate normalisation), and on any
non-negative PSD the result is non-negative. -/
theorem C5_entropy_guard (psd : List ℚ) (hpos : ∀ p ∈ psd, 0 ≤ p) :
    (psd.sum = 0 → compute_spectral_entropy psd = 0) ∧
    0 ≤ compute_spectral_entropy psd := by
  have hzero : psd.sum = 0 → compute_spectral_entropy psd = 0 := by
    intro hsum
    rw [compute_spectral_entropy_eq]
    have hnil : (psd.map (fun p => p / psd.sum)).filter (fun p => decide (0 < p))
        = [] := by
      rw [List.filter_eq_nil_iff]
      intro a ha
      rcases List.mem_map.mp ha with ⟨b, hb, rfl⟩
      rw [hsum, div_zero]
      simp
    rw [hnil]
    simp
  refine ⟨hzero, ?_⟩
  by_cases hsum : psd.sum = 0
  · rw [hzero hsum]
  · rw [compute_spectral_entropy_eq, neg_nonneg]
    apply list_sum_nonpos
    intro x hx
    rcases List.mem_map.mp hx with ⟨q, hq, rfl⟩
    have hq01 := normalized_filter_mem hpos q hq
    have hcast0 : (0 : ℝ) < (q : ℝ) := by exact_mod_cast hq01.1
    have hcast1 : ((q : ℝ)) ≤ 1 := by exact_mod_cast hq01.2
    have hlog : Real.logb 2 (q : ℝ) ≤ 0 :=
      Real.logb_nonpos (by norm_num) hcast0.le hcast1
    nlinarith [hcast0.le, hlog]

/-- Witness for C5 at the concrete PSDs `[0, 0]` (zero-sum case exercised by
the first conjunct) and non-negativity at a non-degenerate PSD. -/
theorem C5_entropy_guard_witness :
    (∀ p ∈ ([0, 0] : List ℚ), 0 ≤ p) ∧
    ((([0, 0] : List ℚ).sum = 0 → compute_spectral_entropy [0, 0] = 0) ∧
      0 ≤ compute_spectral_entropy [0, 0]) :=
  ⟨by decide, C5_entropy_guard [0, 0] (by decide)⟩

/-! ### Claim C6: the DFA scales -/

theorem dfaScales_length (N : ℕ) : (dfaScales N).length = 8 := by
  simp [dfaScales]

/-- Every scale produced by `np.logspace(1, log10(N//4), 8).astype(int)` lies
between `min 10 (N//4)` and `max 10 (N//4)`: the logspace exponents sweep the
closed interval with endpoints 1 and `log10(N//4)`, in descending order when
`N//4 < 10`. -/
theorem dfaScales_bounds (N : ℕ) (hN : 16 ≤ N) :
    ∀ s ∈ dfaScales N,
      min 10 ((N / 4 : ℕ) : ℤ) ≤ s ∧ s ≤ max 10 ((N / 4 : ℕ) : ℤ) := by
  intro s hs
  rcases List.mem_map.mp hs with ⟨i, hi, rfl⟩
  have hi7 : (i : ℝ) ≤ 7 := by
    have h8 : i < 8 := List.mem_range.mp hi
    exact_mod_cast Nat.lt_succ_iff.mp h8
  have hi0 : (0 : ℝ) ≤ (i : ℝ) := Nat.cast_nonneg i
  have hm4 : 4 ≤ N / 4 := by omega
  have hmpos : (0 : ℝ) < ((N / 4 : ℕ) : ℝ) := by
    exact_mod_cast (by omega : 0 < N / 4)
  have hpow : (10 : ℝ) ^ Real.logb 10 ((N / 4 : ℕ) : ℝ) = ((N / 4 : ℕ) : ℝ) :=
    Real.rpow_logb (by norm_num) (by norm_num) hmpos
  have hmono : Monotone (fun x : ℝ => (10 : ℝ) ^ x) :=
    fun a b h => (Real.rpow_le_rpow_left_iff (by norm_num : (1 : ℝ) < 10)).mpr h
  set E : ℝ := Real.logb 10 ((N / 4 : ℕ) : ℝ) with hE
  set e : ℝ := (1 : ℝ) + (i : ℝ) * (E - 1) / 7 with he
  have hlo : min 1 E ≤ e := by
    rcases le_or_lt 1 E with h | h
    · have hnn : (0 : ℝ) ≤ (i : ℝ) * (E - 1) / 7 :=
        div_nonneg (mul_nonneg hi0 (by linarith)) (by norm_num)
      calc min 1 E ≤ 1 := min_le_left _ _
        _ ≤ e := by rw [he]; linarith
    · have hkey : E ≤ e := by
        rw [he]
        nlinarith [mul_nonneg (by linarith : (0 : ℝ) ≤ 7 - (i : ℝ))
          (by linarith : (0 : ℝ) ≤ 1 - E)]
      calc min 1 E ≤ E := min_le_right _ _
        _ ≤ e := hkey
  have hhi : e ≤ max 1 E := by
    rcases le_or_lt 1 E with h | h
    · have hkey : e ≤ E := by
        rw [he]
        nlinarith [mul_nonneg (by linarith : (0 : ℝ) ≤ 7 - (i : ℝ))
          (by linarith : (0 : ℝ) ≤ E - 1)]
      calc e ≤ E := hkey
        _ ≤ max 1 E := le_max_right _ _
    · have hkey : e ≤ 1 := by
        rw [he]
        nlinarith [mul_nonneg hi0 (by linarith : (0 : ℝ) ≤ 1 - E)]
      calc e ≤ 1 := hkey
        _ ≤ max 1 E := le_max_left _ _
  have hlow : (10 : ℝ) ^ (min 1 E) ≤ (10 : ℝ) ^ e := hmono hlo
  have hup : (10 : ℝ) ^ e ≤ (10 : ℝ) ^ (max 1 E) := hmono hhi
  have hminmap : (10 : ℝ) ^ (min 1 E) = min ((10 : ℝ) ^ (1 : ℝ)) ((10 : ℝ) ^ E) :=
    hmono.map_min
  have hmaxmap : (10 : ℝ) ^ (max 1 E) = max ((10 : ℝ) ^ (1 : ℝ)) ((10 : ℝ) ^ E) :=
    hmono.map_max
  rw [hminmap, Real.rpow_one, hpow] at hlow
  rw [hmaxmap, Real.rpow_one, hpow] at hup
  constructor
  · apply Int.le_floor.mpr
    have hcast : ((min 10 ((N / 4 : ℕ) : ℤ) : ℤ) : ℝ)
        = min (10 : ℝ) (((N / 4 : ℕ) : ℝ)) := by
      rw [Int.cast_min, Int.cast_natCast]
      norm_num
    rw [hcast]
    exact hlow
  · have hcast : ((max 10 ((N / 4 : ℕ) : ℤ) : ℤ) : ℝ)
        = max (10 : ℝ) (((N / 4 : ℕ) : ℝ)) := by
      rw [Int.cast_max, Int.cast_natCast]
      norm_num
    have hx : (10 : ℝ) ^ e ≤ ((max 10 ((N / 4 : ℕ) : ℤ) : ℤ) : ℝ) := by
      rw [hcast]; exact hup
    have hfl := Int.floor_le_floor hx
    rw [Int.floor_intCast] at hfl
    exact hfl

/-- C6 as stated is false on the code: at `N = 16` the scales descend from 10
to `N // 4 = 4`, so the first scale, 10, does not lie between 10 and 4. -/
theorem C6_scales_counterexample :
    ¬ (∀ s ∈ dfaScales 16, (10 : ℤ) ≤ s ∧ s ≤ ((16 / 4 : ℕ) : ℤ)) := by
  intro h
  have h10 : (10 : ℤ) ∈ dfaScales 16 := by
    refine List.mem_map.mpr ⟨0, by decide, ?_⟩
    have hexp : ((1 : ℝ) + ((0 : ℕ) : ℝ)
        * (Real.logb 10 ((16 / 4 : ℕ) : ℝ) - 1) / 7) = 1 := by
      norm_num
    rw [hexp, Real.rpow_one]
    have h1 : (10 : ℝ) = ((10 : ℤ) : ℝ) := by norm_num
    rw [h1, Int.floor_intCast]
  have hc := (h 10 h10).2
  norm_num at hc

/-- C6 amended: for every segment of length `N ≥ 16` the scale list has
exactly 8 entries, each lying between `min 10 (N // 4)` and
`max 10 (N // 4)` (the claim's bounds `10 ≤ s ≤ N // 4` hold whenever
`N // 4 ≥ 10`, i.e. `N ≥ 40`; for `16 ≤ N < 40` the interval is reversed). -/
theorem C6_scales_amended (N : ℕ) (hN : 16 ≤ N) :
    (dfaScales N).length = 8 ∧
    ∀ s ∈ dfaScales N,
      min 10 ((N / 4 : ℕ) : ℤ) ≤ s ∧ s ≤ max 10 ((N / 4 : ℕ) : ℤ) :=
  ⟨dfaScales_length N, dfaScales_bounds N hN⟩

/-- Witness for the amended C6 at the concrete length `N = 64`. -/
theorem C6_scales_witness :
    16 ≤ 64 ∧
    ((dfaScales 64).length = 8 ∧
      ∀ s ∈ dfaScales 64,
        min 10 ((64 / 4 : ℕ) : ℤ) ≤ s ∧ s ≤ max 10 ((64 / 4 : ℕ) : ℤ)) :=
  ⟨by norm_num, C6_scales_amended 64 (by norm_num)⟩

/-! ### Claim C4: compute_dfa totality and case analysis -/

theorem cumsum_length (l : List ℚ) : (cumsum l).length = l.length := by
  simp [cumsum, List.length_tail, List.length_scanl]

theorem profile_length (data : List ℚ) : (profile data).length = data.length := by
  simp [profile, cumsum_length]

theorem segAt_length (y : List ℚ) (scale i : ℕ) (hi : i < y.length / scale) :
    (segAt y scale i).length = scale := by
  have h1 : (i + 1) * scale ≤ y.length :=
    calc (i + 1) * scale ≤ y.length / scale * scale := Nat.mul_le_mul_right scale hi
      _ ≤ y.length := Nat.div_mul_le_self y.length scale
  rw [add_mul, one_mul] at h1
  simp [segAt]
  omega

theorem length_filterMap_of_isSome {α β : Type} (f : α → Option β) :
    ∀ l : List α, (∀ a ∈ l, (f a).isSome) → (l.filterMap f).length = l.length
  | [], _ => rfl
  | x :: xs, h => by
    rcases Option.isSome_iff_exists.mp (h x (List.mem_cons_self x xs)) with ⟨b, hb⟩
    rw [List.filterMap_cons, hb, List.length_cons, List.length_cons,
      length_filterMap_of_isSome f xs (fun a ha => h a (List.mem_cons_of_mem x ha))]

theorem fluctForScale_eq_some (y : List ℚ) (scale : ℕ) (hsc : 2 ≤ scale)
    (hlen : scale ≤ y.length) :
    fluctForScale y scale =
      some (listMeanR ((List.range (y.length / scale)).filterMap (fun i =>
        let seg := segAt y scale i
        if seg.length < 2 then none else some (rmsResid seg)))) := by
  have hdiv : 1 ≤ y.length / scale := (Nat.one_le_div_iff (by omega)).mpr hlen
  have hsome : ∀ i ∈ List.range (y.length / scale),
      ((fun i =>
        let seg := segAt y scale i
        if seg.length < 2 then none else some (rmsResid seg)) i).isSome := by
    intro i hi
    have hseg := segAt_length y scale i (List.mem_range.mp hi)
    simp only [hseg]
    rw [if_neg (by omega)]
    rfl
  have hF : ((List.range (y.length / scale)).filterMap (fun i =>
      let seg := segAt y scale i
      if seg.length < 2 then none else some (rmsResid seg))).length
      = y.length / scale := by
    rw [length_filterMap_of_isSome _ _ hsome, List.length_range]
  unfold fluctForScale
  rw [if_neg (by omega)]
  have hne : ((List.range (y.length / scale)).filterMap (fun i =>
      let seg := segAt y scale i
      if seg.length < 2 then none else some (rmsResid seg))).isEmpty = false := by
    have hnil : ((List.range (y.length / scale)).filterMap (fun i =>
        let seg := segAt y scale i
        if seg.length < 2 then none else some (rmsResid seg))) ≠ [] := by
      apply List.ne_nil_of_length_pos
      omega
    simp [List.isEmpty_iff, hnil]
  simp [hne]

/-- For a segment of length at least 16, every one of the 8 scales keeps a
fluctuation value: the scales lie in `[4, N]`, so every scale yields at
least one full slice of length at least 2. -/
theorem dfaFluctuations_length (data : List ℚ) (hN : 16 ≤ data.length) :
    (dfaFluctuations data).length = 8 := by
  unfold dfaFluctuations
  rw [length_filterMap_of_isSome, dfaScales_length]
  intro s hs
  have hb := dfaScales_bounds data.length hN s hs
  have hm4 : 4 ≤ data.length / 4 := by omega
  have hmN : data.length / 4 ≤ data.length := Nat.div_le_self _ _
  have h4 : (4 : ℤ) ≤ s := le_trans (by
    rcases le_total (10 : ℤ) ((data.length / 4 : ℕ) : ℤ) with h | h
    · rw [min_eq_left h]; norm_num
    · rw [min_eq_right h]; exact_mod_cast hm4) hb.1
  have hsN : s ≤ (data.length : ℤ) := le_trans hb.2 (by
    rcases le_total (10 : ℤ) ((data.length / 4 : ℕ) : ℤ) with h | h
    · rw [max_eq_right h]; exact_mod_cast hmN
    · rw [max_eq_left h]; omega)
  have h2 : 2 ≤ s.toNat := by omega
  have hlen : s.toNat ≤ (profile data).length := by
    rw [profile_length]
    omega
  rw [fluctForScale_eq_some (profile data) s.toNat h2 hlen]
  rfl

theorem compute_dfa_eq (data : List ℚ) :
    compute_dfa data =
      if data.length < 16 then 0
      else if (dfaFluctuations data).length < 2 then 0
      else
        slopeFit
          (((dfaScales data.length).take (dfaFluctuations data).length).map
            (fun (sc : ℤ) => Real.logb 10 (sc : ℝ)))
          ((dfaFluctuations data).map (fun f => Real.logb 10 f)) := rfl

/-- C4: the scaling-exponent computation is a total function of its input
(the source's blanket exception handler can only map a failure to the same
sentinel) and follows exactly the claimed case split: sentinel 0 when
`N < 16`; sentinel 0 when fewer than 2 scales retain a fluctuation value;
otherwise the slope of the degree-one fit of log10 scale against log10
fluctuation.  For `N ≥ 16` all 8 scales retain a fluctuation, so the slope
branch is the one actually taken. -/
theorem C4_dfa_total_cases (data : List ℚ) :
    (data.length < 16 → compute_dfa data = 0) ∧
    ((dfaFluctuations data).length < 2 → compute_dfa data = 0) ∧
    (16 ≤ data.length →
      (dfaFluctuations data).length = 8 ∧
      compute_dfa data =
        slopeFit ((dfaScales data.length).map (fun (sc : ℤ) => Real.logb 10 (sc : ℝ)))
          ((dfaFluctuations data).map (fun f => Real.logb 10 f))) := by
  refine ⟨?_, ?_, ?_⟩
  · intro h
    rw [compute_dfa_eq, if_pos h]
  · intro h
    rw [compute_dfa_eq]
    by_cases h16 : data.length < 16
    · rw [if_pos h16]
    · rw [if_neg h16, if_pos h]
  · intro h16
    have hlen := dfaFluctuations_length data h16
    refine ⟨hlen, ?_⟩
    have htake : List.take 8 (dfaScales data.length) = dfaScales data.length := by
      rw [show (8 : ℕ) = (dfaScales data.length).length from (dfaScales_length _).symm]
      exact List.take_length _
    rw [compute_dfa_eq, if_neg (by omega), if_neg (by omega), hlen, htake]

/-- Witness for C4 at the concrete 20-sample zero segment. -/
theorem C4_dfa_witness :
    ((List.replicate 20 (0 : ℚ)).length < 16 →
      compute_dfa (List.replicate 20 (0 : ℚ)) = 0) ∧
    ((dfaFluctuations (List.replicate 20 (0 : ℚ))).length < 2 →
      compute_dfa (List.replicate 20 (0 : ℚ)) = 0) ∧
    (16 ≤ (List.replicate 20 (0 : ℚ)).length →
      (dfaFluctuations (List.replicate 20 (0 : ℚ))).length = 8 ∧
      compute_dfa (List.replicate 20 (0 : ℚ)) =
        slopeFit
          ((dfaScales (List.replicate 20 (0 : ℚ)).length).map
            (fun (sc : ℤ) => Real.logb 10 (sc : ℝ)))
          ((dfaFluctuations (List.replicate 20 (0 : ℚ))).map
            (fun f => Real.logb 10 f))) :=
  C4_dfa_total_cases (List.replicate 20 (0 : ℚ))

theorem fullChunksGo_eq (s : ℕ) (hs : 1 ≤ s) :
    ∀ (fuel : ℕ) (y : List ℚ), y.length ≤ fuel →
      (List.range (y.length / s)).map (segAt y s) = fullChunksGo s fuel y := by
  intro fuel
  induction fuel with
  | zero =>
    intro y hy
    have h0 : y.length = 0 := by omega
    rw [h0, Nat.zero_div]
    rfl
  | succ n ih =>
    intro y hy
    by_cases hss : s ≤ y.length
    · have hdiv : y.length / s = (y.length - s) / s + 1 :=
        Nat.div_eq_sub_div (by omega) hss
      have hdrop : (y.drop s).length = y.length - s := by simp
      have hih := ih (y.drop s) (by rw [hdrop]; omega)
      rw [fullChunksGo, if_pos ⟨hs, hss⟩, hdiv, List.range_succ_eq_map,
        List.map_cons, List.map_map]
      congr 1
      · simp [segAt]
      · rw [← hih, hdrop]
        apply List.map_congr_left
        intro i hi
        simp only [Function.comp_apply, segAt, List.drop_drop]
        have hmul : Nat.succ i * s = s + i * s := by
          rw [Nat.succ_mul]; omega
        rw [hmul]
    · rw [fullChunksGo, if_neg (fun hcon => hss hcon.2)]
      have h0 : y.length / s = 0 := Nat.div_eq_of_lt (by omega)
      rw [h0]
      rfl

theorem fullChunks_eq (s : ℕ) (hs : 1 ≤ s) (y : List ℚ) :
    (List.range (y.length / s)).map (segAt y s) = fullChunks s y :=
  fullChunksGo_eq s hs y.length y le_rfl

theorem fullChunks_mem_length (s : ℕ) (hs : 1 ≤ s) (y : List ℚ) :
    ∀ c ∈ fullChunks s y, c.length = s := by
  intro c hc
  rw [← fullChunks_eq s hs y] at hc
  rcases List.mem_map.mp hc with ⟨i, hi, rfl⟩
  exact segAt_length y s i (List.mem_range.mp hi)

theorem fullChunks_count (s : ℕ) (hs : 1 ≤ s) (y : List ℚ) :
    (fullChunks s y).length = y.length / s := by
  rw [← fullChunks_eq s hs y]
  simp

theorem filterMap_eq_map_of_some {α β : Type} (f : α → Option β) (g : α → β) :
    ∀ l : List α, (∀ a ∈ l, f a = some (g a)) → l.filterMap f = l.map g
  | [], _ => rfl
  | x :: xs, h => by
    rw [List.filterMap_cons, h x (List.mem_cons_self x xs), List.map_cons,
      filterMap_eq_map_of_some f g xs (fun a ha => h a (List.mem_cons_of_mem x ha))]

/-- C7 amended: for every scale `s ≥ 2` the loop takes precisely the
`⌊N / s⌋` full consecutive slices of length `s` — the trailing remainder is
always discarded, whatever its length — and, when at least one slice fits,
the scale's fluctuation value is the mean of the per-slice RMS residuals of
the linear detrending. -/
theorem C7_segmentation_amended (y : List ℚ) (s : ℕ) (hs : 2 ≤ s) :
    (List.range (y.length / s)).map (segAt y s) = fullChunks s y ∧
    (∀ c ∈ fullChunks s y, c.length = s) ∧
    (fullChunks s y).length = y.length / s ∧
    (s ≤ y.length →
      fluctForScale y s = some (listMeanR ((fullChunks s y).map rmsResid))) := by
  have hs1 : 1 ≤ s := by omega
  refine ⟨fullChunks_eq s hs1 y, fullChunks_mem_length s hs1 y,
    fullChunks_count s hs1 y, ?_⟩
  intro hlen
  rw [fluctForScale_eq_some y s hs hlen]
  have hmap : (List.range (y.length / s)).filterMap (fun i =>
      let seg := segAt y s i
      if seg.length < 2 then none else some (rmsResid seg))
      = (List.range (y.length / s)).map (fun i => rmsResid (segAt y s i)) := by
    apply filterMap_eq_map_of_some
    intro i hi
    have hl := segAt_length y s i (List.mem_range.mp hi)
    show (if (segAt y s i).length < 2 then none else some (rmsResid (segAt y s i)))
      = some (rmsResid (segAt y s i))
    rw [if_neg (by omega)]
  rw [hmap, ← fullChunks_eq s hs1 y, List.map_map]
  rfl

/-- Witness for the amended C7 at a concrete profile and scale. -/
theorem C7_segmentation_witness :
    2 ≤ 4 ∧
    (((List.range (([1, 2, 3, 4, 5, 6, 7, 8, 1, 0, 0] : List ℚ).length / 4)).map
        (segAt [1, 2, 3, 4, 5, 6, 7, 8, 1, 0, 0] 4)
      = fullChunks 4 [1, 2, 3, 4, 5, 6, 7, 8, 1, 0, 0]) ∧
    (∀ c ∈ fullChunks 4 ([1, 2, 3, 4, 5, 6, 7, 8, 1, 0, 0] : List ℚ),
      c.length = 4) ∧
    (fullChunks 4 ([1, 2, 3, 4, 5, 6, 7, 8, 1, 0, 0] : List ℚ)).length
      = ([1, 2, 3, 4, 5, 6, 7, 8, 1, 0, 0] : List ℚ).length / 4 ∧
    (4 ≤ ([1, 2, 3, 4, 5, 6, 7, 8, 1, 0, 0] : List ℚ).length →
      fluctForScale [1, 2, 3, 4, 5, 6, 7, 8, 1, 0, 0] 4
        = some (listMeanR
            ((fullChunks 4 [1, 2, 3, 4, 5, 6, 7, 8, 1, 0, 0]).map rmsResid)))) :=
  ⟨by norm_num, C7_segmentation_amended [1, 2, 3, 4, 5, 6, 7, 8, 1, 0, 0] 4
    (by norm_num)⟩

theorem rmsResid_of_meanSq_zero (seg : List ℚ) (h : meanSqResid seg = 0) :
    rmsResid seg = 0 := by
  unfold rmsResid
  rw [h]
  norm_num

/-- C7 as stated is false on the code: for the 11-sample profile of the
segment `[1,1,1,1,1,1,1,1,-7,-1,0]` at scale 4 the trailing remainder
`[1,0,0]` has 3 ≥ 2 samples, so the claim's policy keeps it as a third
segment (with a strictly positive RMS residual), while the code keeps only
the two full slices (both perfectly linear, RMS 0): the fluctuation values
differ. -/
theorem C7_remainder_counterexample :
    fluctForScale (profile [1, 1, 1, 1, 1, 1, 1, 1, -7, -1, 0]) 4 ≠
      claimFluctForScale (profile [1, 1, 1, 1, 1, 1, 1, 1, -7, -1, 0]) 4 := by
  have hprof : profile ([1, 1, 1, 1, 1, 1, 1, 1, -7, -1, 0] : List ℚ)
      = [1, 2, 3, 4, 5, 6, 7, 8, 1, 0, 0] := by
    norm_num [profile, cumsum, listMean, List.scanl]
  have hm1 : meanSqResid [1, 2, 3, 4] = 0 := by
    norm_num [meanSqResid, residuals, lsSlope, lsIntercept, listMean,
      List.range_succ, List.enum, List.enumFrom]
  have hm2 : meanSqResid [5, 6, 7, 8] = 0 := by
    norm_num [meanSqResid, residuals, lsSlope, lsIntercept, listMean,
      List.range_succ, List.enum, List.enumFrom]
  have hm3 : meanSqResid [1, 0, 0] = 1 / 18 := by
    norm_num [meanSqResid, residuals, lsSlope, lsIntercept, listMean,
      List.range_succ, List.enum, List.enumFrom]
  have hr1 : rmsResid [1, 2, 3, 4] = 0 := rmsResid_of_meanSq_zero _ hm1
  have hr2 : rmsResid [5, 6, 7, 8] = 0 := rmsResid_of_meanSq_zero _ hm2
  have hr3 : rmsResid [1, 0, 0] = Real.sqrt (1 / 18) := by
    unfold rmsResid
    rw [hm3]
    norm_num
  have hL : fluctForScale [1, 2, 3, 4, 5, 6, 7, 8, 1, 0, 0] 4
      = some (listMeanR [rmsResid [1, 2, 3, 4], rmsResid [5, 6, 7, 8]]) := rfl
  have hR : claimFluctForScale [1, 2, 3, 4, 5, 6, 7, 8, 1, 0, 0] 4
      = some (listMeanR
          [rmsResid [1, 2, 3, 4], rmsResid [5, 6, 7, 8], rmsResid [1, 0, 0]]) := rfl
  rw [hprof, hL, hR, hr1, hr2, hr3]
  intro hcon
  have heq := Option.some.inj hcon
  have hsqrt : (0 : ℝ) < Real.sqrt (1 / 18) :=
    Real.sqrt_pos.mpr (by norm_num)
  have hml : listMeanR [(0 : ℝ), 0] = 0 := by
    norm_num [listMeanR]
  have hmr : listMeanR [(0 : ℝ), 0, Real.sqrt (1 / 18)] = Real.sqrt (1 / 18) / 3 := by
    rw [listMeanR]
    norm_num
  rw [hml, hmr] at heq
  linarith [hsqrt, heq]

/-- C3 as stated is false on the code: the subject mart counts DISTINCT
window indices, not rows.  With two rows of subject s00 sharing window 0 on
two channels, the subject aggregate reports `n_windows = 1` while 2
FeatureRows share the key. -/
theorem C3_subject_count_counterexample :
    ¬ (∀ rows : List FeatureRow,
        (∀ a ∈ gold_workload_stats rows,
          a.n_windows = rows.countP (fun r => decide (r.channel = a.channel))) ∧
        (∀ b ∈ gold_subject_stats rows,
          b.n_windows = rows.countP (fun r => decide (r.subject = b.subject)))) := by
  intro h
  have hmem : ({ subject := "s00", n_windows := 1 } : SubjectAgg)
      ∈ gold_subject_stats [exRowA, exRowB] := by
    decide
  have hb := (h [exRowA, exRowB]).2 { subject := "s00", n_windows := 1 } hmem
  have hcount : ([exRowA, exRowB].countP
      (fun r => decide (r.subject = "s00"))) = 2 := by decide
  rw [hcount] at hb
  exact absurd hb (by norm_num)

/-- C3 amended: the channel mart's `n_windows` is the number of FeatureRows
sharing the channel; the subject mart's `n_windows` is the number of
DISTINCT window indices among the FeatureRows sharing the subject (not the
row count). -/
theorem C3_n_windows_amended (rows : List FeatureRow) (a : ChannelAgg)
    (b : SubjectAgg) (ha : a ∈ gold_workload_stats rows)
    (hb : b ∈ gold_subject_stats rows) :
    a.n_windows = rows.countP (fun r => decide (r.channel = a.channel)) ∧
    b.n_windows = ((rows.filter (fun r => decide (r.subject = b.subject))).map
        (fun r => r.window_idx)).toFinset.card := by
  constructor
  · rcases List.mem_map.mp ha with ⟨c, hc, rfl⟩
    rw [List.countP_eq_length_filter]
  · rcases List.mem_map.mp hb with ⟨s, hs, rfl⟩
    rw [List.card_toFinset]

/-- Witness for the amended C3 on a one-row table. -/
theorem C3_n_windows_witness :
    ({ channel := "Fp1", avg_mean := 0, n_windows := 1 } : ChannelAgg).n_windows
        = [exRowA].countP (fun r => decide (r.channel = "Fp1")) ∧
    ({ subject := "s00", n_windows := 1 } : SubjectAgg).n_windows
        = (([exRowA].filter (fun r => decide (r.subject = "s00"))).map
            (fun r => r.window_idx)).toFinset.card :=
  C3_n_windows_amended [exRowA]
    { channel := "Fp1", avg_mean := 0, n_windows := 1 }
    { subject := "s00", n_windows := 1 }
    (by simp [gold_workload_stats, firstDedup, exRowA, listMean])
    (by decide)

/-! ### Claims C8 and C9: window boundaries and the minimum-sample skip -/

theorem pyRangeGo_enumFrom_mem (stop : ℤ) (step : ℕ) :
    ∀ (fuel : ℕ) (cur : ℤ) (k : ℕ) (p : ℕ × ℤ),
      p ∈ (pyRangeGo stop step fuel cur).enumFrom k →
      k ≤ p.1 ∧ p.2 = cur + ((p.1 - k : ℕ) : ℤ) * step := by
  intro fuel
  induction fuel with
  | zero =>
    intro cur k p hp
    simp [pyRangeGo] at hp
  | succ n ih =>
    intro cur k p hp
    rw [pyRangeGo] at hp
    by_cases hc : cur < stop ∧ 1 ≤ step
    · rw [if_pos hc, List.enumFrom_cons] at hp
      rcases List.mem_cons.mp hp with h | h
      · rw [h]
        refine ⟨le_refl k, ?_⟩
        simp
      · have hrec := ih (cur + step) (k + 1) p h
        refine ⟨by omega, ?_⟩
        rw [hrec.2]
        have h2 : (p.1 - k : ℕ) = (p.1 - (k + 1) : ℕ) + 1 := by omega
        rw [h2]
        push_cast
        ring
    · rw [if_neg hc] at hp
      simp at hp

/-- Every enumerated window start is its index times the step. -/
theorem windowStarts_enum_mem (n ws step : ℕ) (p : ℕ × ℤ)
    (hp : p ∈ (windowStarts n ws step).enum) : p.2 = (p.1 : ℤ) * step := by
  have h := pyRangeGo_enumFrom_mem ((n : ℤ) - ws + 1) step
    (((n : ℤ) - ws + 1).toNat) 0 0 p hp
  simpa using h.2

/-- Decomposition of membership in the per-subject silver table: every row
comes from one enumerated window and one channel whose slice passed the
10-sample check. -/
theorem mem_silverRows {rec : Recording} {ws step : ℕ} {fs : ℚ} {r : FeatureRow}
    (h : r ∈ silverRowsForSubject rec ws step fs) :
    ∃ p ∈ (windowStarts rec.nSamples ws step).enum, ∃ c ∈ rec.channels,
      10 ≤ (sliceChan c.2 p.2 ws).length ∧
      r = extract_window_features (sliceChan c.2 p.2 ws) c.1 rec.subject p.1
        ((p.2 : ℚ) / fs) (((p.2 : ℚ) + ws - 1) / fs) := by
  unfold silverRowsForSubject at h
  rcases List.mem_flatMap.mp h with ⟨p, hp, hr⟩
  unfold rowsForWindow at hr
  rcases List.mem_filterMap.mp hr with ⟨c, hc, hsome⟩
  by_cases hlen : (sliceChan c.2 p.2 ws).length < 10
  · rw [if_pos hlen] at hsome
    exact absurd hsome (by simp)
  · rw [if_neg hlen] at hsome
    exact ⟨p, hp, c, hc, by omega, (Option.some.inj hsome).symm⟩

/-- The window boundary fields of any produced row are determined by its
window index: `window_start = (idx * step) / fs` and
`window_end = (idx * step + ws - 1) / fs`. -/
theorem silverRows_window_fields {rec : Recording} {ws step : ℕ} {fs : ℚ}
    {r : FeatureRow} (h : r ∈ silverRowsForSubject rec ws step fs) :
    r.window_start = ((r.window_idx * step : ℕ) : ℚ) / fs ∧
    r.window_end = (((r.window_idx * step : ℕ) : ℚ) + ws - 1) / fs := by
  rcases mem_silverRows h with ⟨p, hp, c, hc, hlen, rfl⟩
  have hs := windowStarts_enum_mem rec.nSamples ws step p hp
  constructor
  · show ((p.2 : ℚ) / fs) = ((p.1 * step : ℕ) : ℚ) / fs
    rw [hs]
    push_cast
    ring
  · show ((p.2 : ℚ) + ws - 1) / fs = (((p.1 * step : ℕ) : ℚ) + ws - 1) / fs
    rw [hs]
    push_cast
    ring

/-- C8: for a fixed configuration, `window_end - window_start` is the same
for every FeatureRow of the whole table, and rows of the same subject with
the same window index carry identical window boundaries across channels. -/
theorem C8_window_boundaries (recs : List Recording) (ws step : ℕ) (fs : ℚ)
    (r r' : FeatureRow)
    (hr : r ∈ create_silver_features recs ws step fs)
    (hr' : r' ∈ create_silver_features recs ws step fs) :
    r.window_end - r.window_start = r'.window_end - r'.window_start ∧
    (r.subject = r'.subject → r.window_idx = r'.window_idx →
      r.window_start = r'.window_start ∧ r.window_end = r'.window_end) := by
  rcases List.mem_flatMap.mp hr with ⟨rec1, _, h1⟩
  rcases List.mem_flatMap.mp hr' with ⟨rec2, _, h2⟩
  have f1 := silverRows_window_fields h1
  have f2 := silverRows_window_fields h2
  constructor
  · rw [f1.1, f1.2, f2.1, f2.2]
    ring
  · intro _ hidx
    rw [f1.1, f1.2, f2.1, f2.2, hidx]
    exact ⟨rfl, rfl⟩

theorem rW_mem : rW ∈ create_silver_features [recW] 10 5 250 := by
  apply List.mem_flatMap.mpr
  refine ⟨recW, by simp, ?_⟩
  unfold silverRowsForSubject
  apply List.mem_flatMap.mpr
  refine ⟨(0, 0), by decide, ?_⟩
  unfold rowsForWindow
  apply List.mem_filterMap.mpr
  refine ⟨("Fp1", List.replicate 20 0), by simp [recW], ?_⟩
  rw [if_neg (by decide)]
  rfl

/-- Witness for C8 at the one-channel recording `recW`. -/
theorem C8_window_boundaries_witness :
    rW.window_end - rW.window_start = rW.window_end - rW.window_start ∧
    (rW.subject = rW.subject → rW.window_idx = rW.window_idx →
      rW.window_start = rW.window_start ∧ rW.window_end = rW.window_end) :=
  C8_window_boundaries [recW] 10 5 250 rW rW rW_mem rW_mem

/-- C9: within one window, a channel whose slice carries fewer than 10
samples contributes no FeatureRow to that window (silently: the table is
still produced), while any channel whose slice has at least 10 samples
contributes its FeatureRow to that window. -/
theorem C9_min_samples (rec : Recording) (ws step : ℕ) (fs : ℚ)
    (hnodup : (rec.channels.map Prod.fst).Nodup)
    (p : ℕ × ℤ) (hp : p ∈ (windowStarts rec.nSamples ws step).enum)
    (c : String × List ℚ) (hc : c ∈ rec.channels) :
    ((sliceChan c.2 p.2 ws).length < 10 →
      ∀ r ∈ silverRowsForSubject rec ws step fs,
        ¬ (r.window_idx = p.1 ∧ r.channel = c.1)) ∧
    (10 ≤ (sliceChan c.2 p.2 ws).length →
      extract_window_features (sliceChan c.2 p.2 ws) c.1 rec.subject p.1
          ((p.2 : ℚ) / fs) (((p.2 : ℚ) + ws - 1) / fs)
        ∈ silverRowsForSubject rec ws step fs) := by
  constructor
  · intro hshort r hr hcon
    rcases mem_silverRows hr with ⟨q, hq, c', hc', hlen', rfl⟩
    have hidx : q.1 = p.1 := hcon.1
    have hchan : c'.1 = c.1 := hcon.2
    have hv1 := windowStarts_enum_mem rec.nSamples ws step q hq
    have hv2 := windowStarts_enum_mem rec.nSamples ws step p hp
    have hstart : q.2 = p.2 := by
      rw [hv1, hv2, hidx]
    have hcc : c' = c := by
      by_contra hne
      have hpw : rec.channels.Pairwise
          (fun a b => Prod.fst a ≠ Prod.fst b) := by
        rw [List.Nodup, List.pairwise_map] at hnodup
        exact hnodup
      have hsym : Symmetric (fun a b : String × List ℚ
          => Prod.fst a ≠ Prod.fst b) := fun a b hab hba => hab hba.symm
      exact List.Pairwise.forall hsym hpw hc' hc hne hchan
    rw [hcc, hstart] at hlen'
    omega
  · intro hlong
    unfold silverRowsForSubject
    apply List.mem_flatMap.mpr
    refine ⟨p, hp, ?_⟩
    unfold rowsForWindow
    apply List.mem_filterMap.mpr
    refine ⟨c, hc, ?_⟩
    rw [if_neg (by omega)]

/-- Witness for C9 at `rec9`, window 0, channel Fp2 (5-sample slice). -/
theorem C9_min_samples_witness :
    ((sliceChan (List.replicate 5 (0 : ℚ)) 0 10).length < 10 →
      ∀ r ∈ silverRowsForSubject rec9 10 5 250,
        ¬ (r.window_idx = 0 ∧ r.channel = "Fp2")) ∧
    (10 ≤ (sliceChan (List.replicate 5 (0 : ℚ)) 0 10).length →
      extract_window_features (sliceChan (List.replicate 5 (0 : ℚ)) 0 10) "Fp2"
          "s00" 0 (((0 : ℤ) : ℚ) / 250) ((((0 : ℤ) : ℚ) + 10 - 1) / 250)
        ∈ silverRowsForSubject rec9 10 5 250) :=
  C9_min_samples rec9 10 5 250 (by decide) (0, 0) (by decide)
    ("Fp2", List.replicate 5 0) (by decide)

/-! ### Claim C10: determinism -/

/-- C10: the extraction and aggregation pipeline is a pure function of the
recording collection and the configuration: two runs on equal inputs return
equal FeatureRow tables and equal aggregate tables, values and order alike. -/
theorem C10_determinism (recs1 recs2 : List Recording) (ws1 ws2 step1 step2 : ℕ)
    (fs1 fs2 : ℚ) (h : recs1 = recs2) (hw : ws1 = ws2) (hs : step1 = step2)
    (hf : fs1 = fs2) :
    create_silver_features recs1 ws1 step1 fs1
        = create_silver_features recs2 ws2 step2 fs2 ∧
    gold_workload_stats (create_silver_features recs1 ws1 step1 fs1)
        = gold_workload_stats (create_silver_features recs2 ws2 step2 fs2) ∧
    gold_subject_stats (create_silver_features recs1 ws1 step1 fs1)
        = gold_subject_stats (create_silver_features recs2 ws2 step2 fs2) := by
  subst h
  subst hw
  subst hs
  subst hf
  exact ⟨rfl, rfl, rfl⟩

/-- Witness for C10 at the concrete recording `recW` and the 10/5/250
configuration. -/
theorem C10_determinism_witness :
    create_silver_features [recW] 10 5 250 = create_silver_features [recW] 10 5 250 ∧
    gold_workload_stats (create_silver_features [recW] 10 5 250)
        = gold_workload_stats (create_silver_features [recW] 10 5 250) ∧
    gold_subject_stats (create_silver_features [recW] 10 5 250)
        = gold_subject_stats (create_silver_features [recW] 10 5 250) :=
  C10_determinism [recW] [recW] 10 10 5 5 250 250 rfl rfl rfl rfl

end Prep
